import Mathlib

/-!
Verification of the `customSounds` audio-asset subsystem (`src/audioStore.ts`,
`src/index.tsx`, `src/types.ts`) against its natural-language specification.

The TypeScript code is shallowly embedded:

* JavaScript objects used as string-keyed tables (`AudioStore`, `MetadataStore`,
  the `Map` behind the playback cache) are embedded as association lists in
  insertion order; property assignment keeps the position of an existing key
  and appends a fresh key, exactly like JS objects and `Map.set`.
* `ArrayBuffer` contents are `List Nat`; the `new Uint8Array(buffer)` view is
  modelled by reducing each element mod 256.
* SHA-256 (`crypto.subtle.digest`) is a platform primitive, not repository
  code; it is a parameter `digest : List Nat → List Nat` of every operation
  that hashes.  The hex formatting around it (`getBufferHashString`) is
  repository code and is embedded faithfully.
* `FileReader.readAsDataURL(new Blob([bytes], {type}))` yields
  `"data:" ++ type ++ ";base64," ++ base64(bytes)`; base64 is implemented
  concretely below.
* A thrown JS exception is an `Except.error`; `async` sequencing is ordinary
  sequencing (the host is single-threaded).
-/

/-! ## JS object / Map embedding -/

/-- Keys of a string-keyed JS object / Map, in insertion order. -/
def keysOf {α : Type} (m : List (String × α)) : List String :=
  m.map Prod.fst

/-- JS `k in obj` — does the table have key `k`? -/
def hasKey {α : Type} (m : List (String × α)) (k : String) : Bool :=
  m.any (fun p => p.1 == k)

/-- JS `obj[k]` — first (and, for genuine JS objects, only) binding of `k`. -/
def objGet {α : Type} (m : List (String × α)) (k : String) : Option α :=
  (m.find? (fun p => p.1 == k)).map Prod.snd

/-- JS `obj[k] = v` / `Map.set(k, v)`: replace in place when `k` is present
(keeping its position in insertion order), otherwise append at the end. -/
def objSet {α : Type} (m : List (String × α)) (k : String) (v : α) :
    List (String × α) :=
  if hasKey m k then m.map (fun p => if p.1 == k then (k, v) else p)
  else m ++ [(k, v)]

/-- JS `delete obj[k]` / `Map.delete(k)`. -/
def objDelete {α : Type} (m : List (String × α)) (k : String) :
    List (String × α) :=
  m.filter (fun p => !(p.1 == k))

/-! ## Data model (`audioStore.ts`) -/

/-- The `StoredAudioFile` shape — a blob-table row. -/
structure StoredAudioFile where
  id : String
  name : String
  type : String
  dataUri : String
deriving DecidableEq

/-- The `AudioFileMetadata` shape — a metadata-table row; `size` is the length of
`dataUri`, i.e. of the encoded payload. -/
structure AudioFileMetadata where
  id : String
  name : String
  type : String
  size : Nat
deriving DecidableEq

/-- The two persisted tables (`STORAGE_KEY` and `METADATA_KEY`), both
well-typed.  The raw, possibly-legacy backend used by `migrateStorage` is
modelled separately below. -/
structure Stores where
  audio : List (String × StoredAudioFile)
  meta : List (String × AudioFileMetadata)
deriving DecidableEq

/-- A browser `File`: name, MIME type and raw bytes. -/
structure JsFile where
  name : String
  type : String
  bytes : List Nat
deriving DecidableEq

/-- JS `file.size` — the raw byte length. -/
def JsFile.size (f : JsFile) : Nat := f.bytes.length

/-- The `Error` thrown by `processAudioFile` when a file exceeds the limit.
The JS message string interpolates `(file.size / 2^20).toFixed(1)`; the error
is embedded as the data it carries rather than its rendered text. -/
inductive SaveError where
  | tooLarge (actualBytes : Nat) (maxMB : Nat)
deriving DecidableEq

/-! ## Hash-string and data-URI helpers -/

/-- Lowercase hex digit, as produced by `Number.prototype.toString(16)`. -/
def hexDigitChar (n : Nat) : Char :=
  "0123456789abcdef".toList.getD n '0'

/-- JS `b.toString(16).padStart(2, "0")` for a byte value `b < 256`. -/
def byteToHex (b : Nat) : String :=
  String.mk [hexDigitChar (b / 16 % 16), hexDigitChar (b % 16)]

/-- The `getBufferHashString` helper: hex-encode the digest of the buffer.  `digest`
stands for `crypto.subtle.digest("SHA-256", ·)`; the `Uint8Array` view of its
result is the mod-256 reduction. -/
def getBufferHashString (digest : List Nat → List Nat) (buffer : List Nat) :
    String :=
  String.join (((digest buffer).map (· % 256)).map byteToHex)

/-- The base64 alphabet. -/
def base64Chars : List Char :=
  "ABCDEFGHIJKLMNOPQRSTUVWXYZabcdefghijklmnopqrstuvwxyz0123456789+/".toList

/-- Index into the base64 alphabet. -/
def b64char (n : Nat) : Char := base64Chars.getD n 'A'

/-- RFC 4648 base64 of a byte list, as produced by `readAsDataURL`. -/
def base64Encode : List Nat → List Char
  | [] => []
  | [a] => [b64char (a / 4 % 64), b64char (a % 4 * 16), '=', '=']
  | [a, b] => [b64char (a / 4 % 64), b64char (a % 4 * 16 + b / 16 % 16),
      b64char (b % 16 * 4), '=']
  | a :: b :: c :: rest =>
    b64char (a / 4 % 64) :: b64char (a % 4 * 16 + b / 16 % 16) ::
      b64char (b % 16 * 4 + c / 64 % 4) :: b64char (c % 64) ::
      base64Encode rest

/-- The `switch (extension)` table of `generateDataURI`. -/
def extensionMime (ext : String) : String :=
  if ext = "ogg" then "audio/ogg"
  else if ext = "mp3" then "audio/mpeg"
  else if ext = "wav" then "audio/wav"
  else if ext = "m4a" ∨ ext = "mp4" then "audio/mp4"
  else if ext = "flac" then "audio/flac"
  else if ext = "aac" then "audio/aac"
  else if ext = "webm" then "audio/webm"
  else if ext = "wma" then "audio/x-ms-wma"
  else "audio/mpeg"

/-- The `generateDataURI(buffer, type, name)` helper: pick a MIME type (falling back to a
filename-extension lookup when the supplied one is empty or the generic
`application/octet-stream`), then produce the base64 data URI that
`FileReader.readAsDataURL` yields for the blob. -/
def generateDataURI (buffer : List Nat) (ty : String) (name : String) :
    String :=
  let mimeType := if ty = "" then "audio/mpeg" else ty
  let mimeType :=
    if mimeType = "" ∨ mimeType = "application/octet-stream" then
      if name ≠ "" then
        extensionMime (((name.splitOn ".").getLastD "").toLower)
      else mimeType
    else mimeType
  let uint8Array := buffer.map (· % 256)
  "data:" ++ mimeType ++ ";base64," ++ String.mk (base64Encode uint8Array)

/-! ## Saving (`processAudioFile`, `saveAudioFile`, `saveAudioFiles`) -/

/-- The `processAudioFile(file)` step: reject a file whose raw size exceeds
`maxFileSizeMB * 1024 * 1024`, otherwise hash the bytes into the id and build
the blob row and metadata row.  `maxMB` is the module variable
`maxFileSizeMB`. -/
def processAudioFile (maxMB : Nat) (digest : List Nat → List Nat)
    (f : JsFile) :
    Except SaveError (String × StoredAudioFile × AudioFileMetadata) :=
  let maxBytes := maxMB * 1024 * 1024
  if f.size > maxBytes then
    .error (.tooLarge f.size maxMB)
  else
    let buffer := f.bytes
    let id := getBufferHashString digest buffer
    let dataUri := generateDataURI buffer f.type f.name
    .ok (id, ⟨id, f.name, f.type, dataUri⟩, ⟨id, f.name, f.type, dataUri.length⟩)

/-- The store operation `saveAudioFile(file)`: on success write the blob row then the metadata
row; a thrown size error leaves both tables untouched (the throw happens
before any write).  Result: the thrown-or-returned value plus the final
backend state. -/
def saveAudioFile (maxMB : Nat) (digest : List Nat → List Nat) (st : Stores)
    (f : JsFile) : Except SaveError String × Stores :=
  match processAudioFile maxMB digest f with
  | .error e => (.error e, st)
  | .ok (id, audioData, metadata) =>
    (.ok id, ⟨objSet st.audio id audioData, objSet st.meta id metadata⟩)

/-- One iteration of the `saveAudioFiles` loop: try the file, record either
its id or the caught error, and update the in-memory tables on success. -/
def saveStep (maxMB : Nat) (digest : List Nat → List Nat)
    (acc : List (Except SaveError String) × Stores) (f : JsFile) :
    List (Except SaveError String) × Stores :=
  match processAudioFile maxMB digest f with
  | .error e => (acc.1 ++ [Except.error e], acc.2)
  | .ok (id, audioData, metadata) =>
    (acc.1 ++ [Except.ok id],
      ⟨objSet acc.2.audio id audioData, objSet acc.2.meta id metadata⟩)

/-- The batch operation `saveAudioFiles(files)`: read both tables once, process each file in
order, recording per-file either the id or the thrown error, then write both
tables once. -/
def saveAudioFiles (maxMB : Nat) (digest : List Nat → List Nat) (st : Stores)
    (files : List JsFile) : List (Except SaveError String) × Stores :=
  files.foldl (saveStep maxMB digest) ([], st)

/-- The store operation `deleteAudio(id)`: remove the row from each table when present (the JS
guard tests `audioStore[id]` for truthiness; row values are objects, hence
truthy exactly when present). -/
def deleteAudio (st : Stores) (id : String) : Stores :=
  let audio := if (objGet st.audio id).isSome then objDelete st.audio id
    else st.audio
  let meta := if (objGet st.meta id).isSome then objDelete st.meta id
    else st.meta
  ⟨audio, meta⟩

/-- The store operation `clearStore()`. -/
def clearStore : Stores := ⟨[], []⟩

/-- Result record of `getStorageInfo`. -/
structure StorageInfo where
  fileCount : Nat
  totalSizeKB : Nat
deriving DecidableEq

/-- The store operation `getStorageInfo()`: fold the metadata table's `size` fields (the function
reads only the metadata table, never a blob payload).
`Math.round(totalSize / 1024)` on a nonnegative number is
`⌊totalSize / 1024 + 1/2⌋ = (totalSize + 512) / 1024` in `Nat` division. -/
def getStorageInfo (metadata : List (String × AudioFileMetadata)) :
    StorageInfo :=
  let totalSize := metadata.foldl (fun acc p => acc + p.2.size) 0
  ⟨metadata.length, (totalSize + 512) / 1024⟩

/-! ## Migration engine (`migrateStorage`)

The raw backend can hold anything a previous version wrote, so its rows are
embedded as `RawValue`: a plain object with optional fields, a string, or a
null/undefined entry. -/

/-- A legacy (or current) blob-table row viewed as an untyped JS object:
each field may be absent. -/
structure RawFile where
  id : Option String
  name : Option String
  type : Option String
  dataUri : Option String
  buffer : Option (List Nat)
deriving DecidableEq

/-- An arbitrary value in the raw blob table. -/
inductive RawValue where
  | obj (f : RawFile)
  | str (s : String)
  | nullish
deriving DecidableEq

/-- A metadata row as rebuilt from raw values — the fields come from untyped
property reads and may be `undefined`. -/
structure RawMetaRow where
  id : Option String
  name : Option String
  type : Option String
  size : Nat
deriving DecidableEq

/-- The raw persistent backend: the two well-known keys, each possibly
absent. -/
structure Backend where
  audio : Option (List (String × RawValue))
  meta : Option (List (String × RawMetaRow))
deriving DecidableEq

/-- Case-insensitive hex digit, `[0-9a-f]` under the regex's `/i` flag. -/
def isHexCI (c : Char) : Bool :=
  "0123456789abcdefABCDEF".toList.contains c

/-- A fixed-length all-hex segment of the UUID pattern. -/
def uuidSeg (s : String) (n : Nat) : Bool :=
  s.length = n && s.toList.all isHexCI

/-- The `isUUIDLike` check — `UUID_REGEX.test(s)` for
`/^[0-9a-f]{8}-[0-9a-f]{4}-[0-5][0-9a-f]{3}-[089ab][0-9a-f]{3}-[0-9a-f]{12}$/i`:
five dash-separated segments of lengths 8, 4, 4, 4, 12, all hex, the third
starting with `[0-5]` and the fourth with `[089ab]` (case-insensitively). -/
def isUUIDLike (s : String) : Bool :=
  match s.splitOn "-" with
  | [a, b, c, d, e] =>
    uuidSeg a 8 && uuidSeg b 4 &&
    (match c.toList with
     | x :: rest => "012345".toList.contains x &&
         rest.length = 3 && rest.all isHexCI
     | [] => false) &&
    (match d.toList with
     | x :: rest => "089abAB".toList.contains x &&
         rest.length = 3 && rest.all isHexCI
     | [] => false) &&
    uuidSeg e 12
  | _ => false

/-- Does a raw row trigger migration?  The detection loop skips falsy and
non-object values, then tests `"buffer" in file` or a UUID-shaped `file.id`. -/
def needsMigrationRow (v : RawValue) : Bool :=
  match v with
  | .obj f => f.buffer.isSome ||
      (f.id.isSome && isUUIDLike (f.id.getD ""))
  | _ => false

/-- The blob-rewrite loop of `migrateStorage`:

`for (const [file] of Object.values(audioStore)) { ... }`

array-destructures every value of the table.  A plain object is not iterable,
so destructuring it (or `null`/`undefined`) throws a `TypeError`
(`Except.error ()`).  A string destructures to its first character, a
one-character string, which the `typeof file !== "object"` guard then skips.
Consequently every iteration either throws or skips: the loop body that would
rebuild the row is unreachable, and on success the rebuilt store is empty. -/
def migrateLoop : List (String × RawValue) →
    Except Unit (List (String × RawValue))
  | [] => .ok []
  | (_, v) :: rest =>
    match v with
    | .obj _ => .error ()
    | .nullish => .error ()
    | .str _ => migrateLoop rest

/-- The metadata-rebuild loop: for each entry of the current blob table build
`{id: file.id, name: file.name, type: file.type, size: file.dataUri?.length || 0}`.
Reading a property of `null`/`undefined` throws; reading one of a string
yields `undefined` fields and size `0`. -/
def rebuildMetaRow (v : RawValue) : Except Unit RawMetaRow :=
  match v with
  | .nullish => .error ()
  | .str _ => .ok ⟨none, none, none, 0⟩
  | .obj f => .ok ⟨f.id, f.name, f.type,
      match f.dataUri with
      | some u => u.length
      | none => 0⟩

/-- Rebuild the whole metadata table from the raw blob table. -/
def rebuildMeta : List (String × RawValue) →
    Except Unit (List (String × RawMetaRow))
  | [] => .ok []
  | (k, v) :: rest => do
    let row ← rebuildMetaRow v
    let tail ← rebuildMeta rest
    .ok ((k, row) :: tail)

/-- The startup operation `migrateStorage()`: detect legacy rows (raw `buffer` field or UUID-shaped
id) and rewrite the blob table; independently rebuild the metadata table when
it is absent while blobs exist.  Returns whether any migration work was done,
together with the backend state; a thrown `TypeError` is `Except.error`. -/
def migrateStorage (b : Backend) : Except Unit (Bool × Backend) :=
  match b.audio with
  | none => .ok (false, b)
  | some audioStore =>
    let needsMigration := audioStore.any (fun p => needsMigrationRow p.2)
    let needsMetadataRebuild := b.meta.isNone && decide (0 < audioStore.length)
    if needsMigration then do
      let newAudioStore ← migrateLoop audioStore
      let newMeta ← rebuildMeta newAudioStore
      .ok (true, ⟨some newAudioStore, some newMeta⟩)
    else if needsMetadataRebuild then do
      let newMeta ← rebuildMeta audioStore
      .ok (true, ⟨some audioStore, some newMeta⟩)
    else
      .ok (false, b)

/-! ## Playback cache (`addToCache`, `getFromCache`, `clearCache`)

`dataUriCache` is a JS `Map` (insertion order, oldest first) and
`currentCacheSize` a JS number, which can in principle go negative — it is
embedded as `Int`.  `maxCacheSizeBytes` is the module variable, passed as the
`cap` parameter. -/

/-- The in-memory cache state: the `Map` entries in insertion order plus the
running byte counter. -/
structure CacheState where
  entries : List (String × String)
  currentCacheSize : Int
deriving DecidableEq

/-- The cache at module load / after `clearCache()`. -/
def emptyCache : CacheState := ⟨[], 0⟩

/-- Total length of the uris actually stored in the cache. -/
def sumSizes (entries : List (String × String)) : Nat :=
  (entries.map (fun p => p.2.length)).sum

/-- The eviction loop of `addToCache`:

`while (currentCacheSize + uriSize > maxCacheSizeBytes && dataUriCache.size > 0)`

pops the oldest key, subtracting its uri length from the counter.  The body
is guarded by `if (oldestKey)`: when the oldest key is the empty string the
guard is falsy, the body does nothing, the loop condition never changes and
the JS loop runs forever — embedded as `Except`-style `none`. -/
def evictLoop (cap uriSize : Nat) :
    List (String × String) → Int → Option (List (String × String) × Int)
  | entries, size =>
    if size + (uriSize : Int) ≤ (cap : Int) then some (entries, size)
    else
      match entries with
      | [] => some ([], size)
      | (k, v) :: rest =>
        if k = "" then none
        else evictLoop cap uriSize rest (size - (v.length : Int))

/-- The cache operation `addToCache(fileId, dataUri)`: reject a uri longer than the whole
capacity; otherwise evict oldest-first until the new uri fits, then
`Map.set` it (which keeps the old position when `fileId` is already present)
and add its length to the counter.  `none` is the non-terminating eviction
case. -/
def addToCache (cap : Nat) (c : CacheState) (fileId dataUri : String) :
    Option CacheState :=
  let uriSize := dataUri.length
  if uriSize > cap then some c
  else
    match evictLoop cap uriSize c.entries c.currentCacheSize with
    | none => none
    | some (entries', size') =>
      some ⟨objSet entries' fileId dataUri, size' + (uriSize : Int)⟩

/-- The cache operation `getFromCache(fileId)`: on a truthy hit, move the entry to the
most-recently-used end by delete-then-set; an empty-string uri is returned
without the move (it is falsy); returns the uri (or `undefined`) and the
updated cache. -/
def getFromCache (c : CacheState) (fileId : String) :
    Option String × CacheState :=
  match objGet c.entries fileId with
  | none => (none, c)
  | some uri =>
    if uri = "" then (some uri, c)
    else (some uri,
      ⟨objSet (objDelete c.entries fileId) fileId uri, c.currentCacheSize⟩)

/-- The cache operation `clearCache()`. -/
def clearCache : CacheState := emptyCache

/-- A cache operation, for stating sequence invariants. -/
inductive CacheOp where
  | put (id uri : String)
  | get (id : String)
  | clear
deriving DecidableEq

/-- Run a sequence of cache operations; `none` when a put's eviction loop
diverges. -/
def runOps (cap : Nat) : CacheState → List CacheOp → Option CacheState
  | c, [] => some c
  | c, op :: rest =>
    match op with
    | .put id uri =>
      match addToCache cap c id uri with
      | none => none
      | some c' => runOps cap c' rest
    | .get id => runOps cap (getFromCache c id).2 rest
    | .clear => runOps cap clearCache rest

/-- Like `runOps`, but also fails on any `put` whose id is already a key of
the cache — successful runs contain only first-time inserts. -/
def runOpsFresh (cap : Nat) : CacheState → List CacheOp → Option CacheState
  | c, [] => some c
  | c, op :: rest =>
    match op with
    | .put id uri =>
      if hasKey c.entries id then none
      else
        match addToCache cap c id uri with
        | none => none
        | some c' => runOpsFresh cap c' rest
    | .get id => runOpsFresh cap (getFromCache c id).2 rest
    | .clear => runOpsFresh cap clearCache rest

/-! ## Override resolver (`getOverride`, `getCustomSoundURL`)

`SEASONAL_SOUNDS` (the seasonal id → uri table) and the current
`makeEmptyOverride` live in the current `types.ts`, which is not part of the
sources here; the resolver is therefore parameterized by the seasonal table,
and theorems quantify over it.  The settings store persists overrides as JSON
strings; the parse/stringify round-trip is modelled as the identity, so the
store maps sound-event ids directly to override records. -/

/-- A catalog entry of `soundTypes` (`types.ts`). -/
structure SoundType where
  name : String
  id : String
  seasonal : Option (List String)
deriving DecidableEq

/-- The current override record shape used by `index.tsx`. -/
structure SoundOverride where
  enabled : Bool
  selectedSound : String
  selectedFileId : Option String
  volume : Nat
deriving DecidableEq

/-- Modelled from the spec: the current `makeEmptyOverride` of `types.ts` is
not among the sources; per the spec an absent override is a disabled default
(`enabled: false`), which is all the resolver ever observes of it. -/
def makeEmptyOverride : SoundOverride :=
  ⟨false, "default", none, 100⟩

/-- The settings store: sound-event id → override record. -/
def SettingsStore : Type := List (String × SoundOverride)

/-- The settings read `getOverride(id)`: the stored override, or an empty override when the
slot is absent (or unparsable). -/
def getOverride (store : SettingsStore) (id : String) : SoundOverride :=
  (objGet store id).getD makeEmptyOverride

/-- JS truthiness of `override.selectedFileId`. -/
def truthyFileId : Option String → Bool
  | none => false
  | some s => s ≠ ""

/-- JS `s.startsWith(pre)`: is `pre` a character-level prefix of `s`? -/
def jsStartsWith (s pre : String) : Bool :=
  pre.toList.isPrefixOf s.toList

/-- The `soundTypes` catalog from `types.ts` (seasonal ids per event). -/
def soundTypes : List SoundType :=
  [⟨"Message", "message1", some ["halloween_message1"]⟩,
   ⟨"Message (Focused Channel)", "message3", none⟩,
   ⟨"Defean", "deafen",
     some ["halloween_deafen", "halloween_defean", "winter_deafen"]⟩,
   ⟨"Undefean", "undeafen",
     some ["halloween_undeafen", "halloween_undefean", "winter_undeafen"]⟩,
   ⟨"Mute", "mute", some ["halloween_mute", "winter_mute"]⟩,
   ⟨"Unmute", "unmute", some ["halloween_unmute", "winter_unmute"]⟩,
   ⟨"Voice Disconnected", "disconnect",
     some ["halloween_disconnect", "winter_disconnect"]⟩,
   ⟨"PTT Activate", "ptt_start", none⟩,
   ⟨"PTT Deactive", "ptt_stop", none⟩,
   ⟨"User Join", "user_join",
     some ["halloween_user_join", "winter_user_join"]⟩,
   ⟨"User Leave", "user_leave",
     some ["halloween_user_leave", "winter_user_leave"]⟩,
   ⟨"User Moved", "user_moved", none⟩,
   ⟨"Outgoing Ring", "call_calling",
     some ["halloween_call_calling", "winter_call_calling"]⟩,
   ⟨"Incoming Ring", "call_ringing",
     some ["halloween_call_ringing", "winter_call_ringing"]⟩,
   ⟨"Stream Started", "stream_started", none⟩,
   ⟨"Stream Ended", "stream_ended", none⟩,
   ⟨"Viewer Join", "stream_user_joined", none⟩,
   ⟨"Viewer Leave", "stream_user_left", none⟩,
   ⟨"Activity Start", "activity_launch", none⟩,
   ⟨"Activity End", "activity_end", none⟩,
   ⟨"Activity User Join", "activity_user_join", none⟩,
   ⟨"Activity User Leave", "activity_user_left", none⟩,
   ⟨"Invited to Speak", "reconnect", none⟩]

/-- The resolver `getCustomSoundURL(id)` of `index.tsx`.  Inputs:
the catalog (`allSoundTypes`), the seasonal table (`SEASONAL_SOUNDS`), the
settings store, the playback cache and the sound-event id.  Returns the
resolved uri (or `null`) together with the cache (whose recency order a
custom-branch hit mutates). -/
def getCustomSoundURL (catalog : List SoundType)
    (seasonalTable : List (String × String)) (store : SettingsStore)
    (cache : CacheState) (id : String) : Option String × CacheState :=
  let override := getOverride store id
  if !override.enabled then (none, cache)
  else if override.selectedSound == "custom" &&
      truthyFileId override.selectedFileId then
    getFromCache cache (override.selectedFileId.getD "")
  else if override.selectedSound != "default" &&
      override.selectedSound != "custom" then
    match objGet seasonalTable override.selectedSound with
    | some uri => (some uri, cache)
    | none =>
      match catalog.find? (fun t => t.id == id) with
      | none => (none, cache)
      | some soundType =>
        match soundType.seasonal with
        | none => (none, cache)
        | some seasonal =>
          match seasonal.find?
              (fun sid => jsStartsWith sid (override.selectedSound ++ "_")) with
          | none => (none, cache)
          | some seasonalId =>
            if seasonalId ≠ "" then
              match objGet seasonalTable seasonalId with
              | some uri => (some uri, cache)
              | none => (none, cache)
            else (none, cache)
  else (none, cache)

/-! ## Helper lemmas on the JS-object embedding -/

deriving instance DecidableEq for Except

theorem hasKey_iff {α : Type} (m : List (String × α)) (k : String) :
    hasKey m k = true ↔ k ∈ keysOf m := by
  simp only [hasKey, keysOf, List.any_eq_true, List.mem_map, beq_iff_eq]

theorem filter_eq_nil_of_not_mem_keys {α : Type} {m : List (String × α)}
    {k : String} (h : k ∉ keysOf m) :
    m.filter (fun p => p.1 == k) = [] := by
  induction m with
  | nil => rfl
  | cons p rest ih =>
    simp only [keysOf, List.map_cons, List.mem_cons, not_or] at h
    simp only [List.filter_cons]
    rw [if_neg (by simp [beq_iff_eq]; exact fun hh => h.1 hh.symm)]
    exact ih (by simpa [keysOf] using h.2)

theorem map_set_id_of_not_mem_keys {α : Type} {m : List (String × α)}
    {k : String} (v : α) (h : k ∉ keysOf m) :
    m.map (fun p => if p.1 == k then (k, v) else p) = m := by
  induction m with
  | nil => rfl
  | cons p rest ih =>
    simp only [keysOf, List.map_cons, List.mem_cons, not_or] at h
    simp only [List.map_cons]
    rw [if_neg (by simp [beq_iff_eq]; exact fun hh => h.1 hh.symm)]
    rw [ih (by simpa [keysOf] using h.2)]

theorem keysOf_objSet_of_hasKey {α : Type} {m : List (String × α)}
    {k : String} (v : α) (h : hasKey m k = true) :
    keysOf (objSet m k v) = keysOf m := by
  simp only [objSet, if_pos h, keysOf, List.map_map]
  refine List.map_congr_left ?_
  intro p _
  by_cases hk : p.1 = k
  · simp [hk]
  · simp [hk]

theorem keysOf_objSet_of_not_hasKey {α : Type} {m : List (String × α)}
    {k : String} (v : α) (h : hasKey m k = false) :
    keysOf (objSet m k v) = keysOf m ++ [k] := by
  simp [objSet, h, keysOf]

theorem nodup_keys_objSet {α : Type} {m : List (String × α)} {k : String}
    (v : α) (h : (keysOf m).Nodup) :
    (keysOf (objSet m k v)).Nodup := by
  cases hk : hasKey m k with
  | true => rw [keysOf_objSet_of_hasKey v hk]; exact h
  | false =>
    rw [keysOf_objSet_of_not_hasKey v hk]
    have hnot : k ∉ keysOf m := by
      intro hmem
      rw [(hasKey_iff m k).mpr hmem] at hk
      exact Bool.noConfusion hk
    simp [List.nodup_append, h, hnot]

theorem filter_map_set {α : Type} {k : String} (v : α) :
    ∀ m : List (String × α), (keysOf m).Nodup → hasKey m k = true →
    (m.map (fun p => if p.1 == k then (k, v) else p)).filter
      (fun p => p.1 == k) = [(k, v)] := by
  intro m
  induction m with
  | nil => intro _ hk; simp [hasKey] at hk
  | cons p rest ih =>
    intro h hk
    simp only [keysOf, List.map_cons, List.nodup_cons] at h
    by_cases hpk : (p.1 == k) = true
    · have hpk' : p.1 = k := by simpa [beq_iff_eq] using hpk
      have hnr : k ∉ keysOf rest := by rw [← hpk']; exact h.1
      simp only [List.map_cons, if_pos hpk]
      rw [map_set_id_of_not_mem_keys v hnr]
      simp [List.filter_cons, filter_eq_nil_of_not_mem_keys hnr]
    · have hr : hasKey rest k = true := by
        simp only [hasKey, List.any_cons] at hk
        rcases Bool.or_eq_true_iff.mp hk with h1 | h1
        · exact absurd h1 hpk
        · exact h1
      simp only [List.map_cons, if_neg hpk]
      simp only [List.filter_cons, if_neg hpk]
      exact ih (by simpa [keysOf] using h.2) hr

theorem filter_objSet_self {α : Type} {m : List (String × α)} {k : String}
    (v : α) (h : (keysOf m).Nodup) :
    (objSet m k v).filter (fun p => p.1 == k) = [(k, v)] := by
  cases hk : hasKey m k with
  | false =>
    have hnot : k ∉ keysOf m := by
      intro hmem
      rw [(hasKey_iff m k).mpr hmem] at hk
      exact Bool.noConfusion hk
    simp only [objSet, hk, Bool.false_eq_true, if_false, List.filter_append]
    rw [filter_eq_nil_of_not_mem_keys hnot]
    simp
  | true =>
    simp only [objSet, hk, if_true]
    exact filter_map_set v m h hk

theorem length_filter_objSet_self {α : Type} {m : List (String × α)}
    {k : String} (v : α) (h : (keysOf m).Nodup) :
    ((objSet m k v).filter (fun p => p.1 == k)).length = 1 := by
  rw [filter_objSet_self v h]; rfl

theorem length_objSet_of_hasKey {α : Type} {m : List (String × α)}
    {k : String} (v : α) (h : hasKey m k = true) :
    (objSet m k v).length = m.length := by
  simp [objSet, h]

theorem hasKey_objSet_self {α : Type} (m : List (String × α)) (k : String)
    (v : α) : hasKey (objSet m k v) k = true := by
  rw [hasKey_iff]
  cases hk : hasKey m k with
  | true => rw [keysOf_objSet_of_hasKey v hk]; exact (hasKey_iff m k).mp hk
  | false => rw [keysOf_objSet_of_not_hasKey v hk]; simp

/-! ## C1 — content-addressed save is idempotent -/

/-- The conclusion of the C1 claim at given inputs: both saves return the id
`hash(bytes)`, the blob table afterwards holds exactly one row keyed by that
id, and the second save leaves the metadata row count unchanged. -/
def SaveTwiceProp (maxMB : Nat) (digest : List Nat → List Nat) (st : Stores)
    (f : JsFile) : Prop :=
  let id := getBufferHashString digest f.bytes
  let r1 := saveAudioFile maxMB digest st f
  let r2 := saveAudioFile maxMB digest r1.2 f
  r1.1 = Except.ok id ∧ r2.1 = Except.ok id ∧
  ((r2.2.audio.filter (fun p => p.1 == id)).length = 1) ∧
  r2.2.meta.length = r1.2.meta.length

/-- Evaluating `saveAudioFile` on a file within the size limit: the returned id and the
two table writes, explicitly. -/
theorem saveAudioFile_ok (maxMB : Nat) (digest : List Nat → List Nat)
    (st : Stores) (f : JsFile) (hsize : f.size ≤ maxMB * 1024 * 1024) :
    saveAudioFile maxMB digest st f =
      (Except.ok (getBufferHashString digest f.bytes),
        ⟨objSet st.audio (getBufferHashString digest f.bytes)
            ⟨getBufferHashString digest f.bytes, f.name, f.type,
              generateDataURI f.bytes f.type f.name⟩,
          objSet st.meta (getBufferHashString digest f.bytes)
            ⟨getBufferHashString digest f.bytes, f.name, f.type,
              (generateDataURI f.bytes f.type f.name).length⟩⟩) := by
  have hlt : ¬ f.size > maxMB * 1024 * 1024 := by omega
  unfold saveAudioFile processAudioFile
  rw [if_neg hlt]

/-- C1: for every file within the size limit, saving it twice returns the
same content-hash id both times, leaves a single blob row keyed by that hash,
and does not change the metadata row count on the second call.  The blob
table is assumed to have no duplicate keys, which JS objects guarantee. -/
theorem c1_save_content_addressed (maxMB : Nat)
    (digest : List Nat → List Nat) (st : Stores) (f : JsFile)
    (hnodup : (keysOf st.audio).Nodup)
    (hsize : f.size ≤ maxMB * 1024 * 1024) :
    SaveTwiceProp maxMB digest st f := by
  have h1 := saveAudioFile_ok maxMB digest st f hsize
  have h2 := saveAudioFile_ok maxMB digest
    (saveAudioFile maxMB digest st f).2 f hsize
  dsimp only [SaveTwiceProp]
  refine ⟨?_, ?_, ?_, ?_⟩
  · rw [h1]
  · rw [h2]
  · rw [h2, h1]
    exact length_filter_objSet_self _ (nodup_keys_objSet _ hnodup)
  · rw [h2, h1]
    exact length_objSet_of_hasKey _ (hasKey_objSet_self _ _ _)

/-- A digest stand-in for witnesses: a constant 32-byte value (the claims
hold for every digest function). -/
def constDigest : List Nat → List Nat := fun _ => List.replicate 32 0

/-- A small valid file used by witnesses. -/
def exValidFile : JsFile := ⟨"a.mp3", "audio/mpeg", []⟩

/-- A file that exceeds the ceiling when `maxFileSizeMB = 0`. -/
def exBigFile : JsFile := ⟨"b.mp3", "audio/mpeg", [1]⟩

theorem c1_witness :
    (keysOf (Stores.mk [] []).audio).Nodup ∧
    exValidFile.size ≤ 15 * 1024 * 1024 ∧
    SaveTwiceProp 15 constDigest ⟨[], []⟩ exValidFile :=
  ⟨by decide, by decide,
    c1_save_content_addressed 15 constDigest ⟨[], []⟩ exValidFile
      (by decide) (by decide)⟩

/-! ## C2 — size ceiling rejects and writes nothing -/

/-- C2: a file whose raw byte length exceeds `maxFileSizeMB * 1024 * 1024`
makes `saveAudioFile` return the size-limit error and leaves both tables
exactly as they were. -/
theorem c2_size_limit (maxMB : Nat) (digest : List Nat → List Nat)
    (st : Stores) (f : JsFile) (hsize : f.size > maxMB * 1024 * 1024) :
    saveAudioFile maxMB digest st f =
      (Except.error (SaveError.tooLarge f.size maxMB), st) := by
  simp only [saveAudioFile, processAudioFile, if_pos hsize]

theorem c2_witness :
    exBigFile.size > 0 * 1024 * 1024 ∧
    saveAudioFile 0 constDigest ⟨[], []⟩ exBigFile =
      (Except.error (SaveError.tooLarge exBigFile.size 0), ⟨[], []⟩) :=
  ⟨by decide, c2_size_limit 0 constDigest ⟨[], []⟩ exBigFile (by decide)⟩

/-! ## C9 — storage info -/

/-- Sum of the metadata rows' `size` fields. -/
def metaSizeSum (m : List (String × AudioFileMetadata)) : Nat :=
  (m.map (fun p => p.2.size)).sum

theorem foldl_add_size (m : List (String × AudioFileMetadata)) :
    ∀ acc : Nat, m.foldl (fun acc p => acc + p.2.size) acc =
      acc + metaSizeSum m := by
  induction m with
  | nil => intro acc; simp [metaSizeSum]
  | cons p rest ih =>
    intro acc
    simp only [List.foldl_cons, ih, metaSizeSum, List.map_cons, List.sum_cons]
    omega

/-- C9 counterexample: a metadata table with a single row of `size = 1` has
byte sum `1`, yet `getStorageInfo` reports total size `0` — the returned
record carries a rounded kilobyte count (`totalSizeKB`), not the byte sum the
claim states. -/
theorem c9_counterexample :
    getStorageInfo [("a", ⟨"a", "a.mp3", "audio/mpeg", 1⟩)] =
      ⟨1, 0⟩ ∧
    metaSizeSum [("a", ⟨"a", "a.mp3", "audio/mpeg", 1⟩)] = 1 ∧
    (getStorageInfo [("a", ⟨"a", "a.mp3", "audio/mpeg", 1⟩)]).totalSizeKB ≠
      metaSizeSum [("a", ⟨"a", "a.mp3", "audio/mpeg", 1⟩)] := by
  decide

/-- C9 (amended): `getStorageInfo` is computed purely from the metadata
table; `fileCount` is the number of metadata rows and the total size is
reported in kilobytes, `Math.round`-ed: `(Σ sizeBytes + 512) / 1024`. -/
theorem c9_storage_info (m : List (String × AudioFileMetadata)) :
    getStorageInfo m = ⟨m.length, (metaSizeSum m + 512) / 1024⟩ := by
  simp only [getStorageInfo, foldl_add_size m 0, Nat.zero_add]

/-! ## C3 — batch saving is per-file independent -/

theorem saveAudioFiles_fold (maxMB : Nat) (digest : List Nat → List Nat) :
    ∀ (files : List JsFile) (acc : List (Except SaveError String))
      (st : Stores),
      (files.foldl (saveStep maxMB digest) (acc, st)).1 =
        acc ++ files.map
          (fun f => (processAudioFile maxMB digest f).map Prod.fst) := by
  intro files
  induction files with
  | nil => intro acc st; simp
  | cons f rest ih =>
    intro acc st
    simp only [List.foldl_cons, List.map_cons]
    cases hp : processAudioFile maxMB digest f with
    | error e =>
      rw [show saveStep maxMB digest (acc, st) f =
        (acc ++ [Except.error e], st) by simp [saveStep, hp]]
      rw [ih]
      simp [hp, Except.map]
    | ok t =>
      obtain ⟨id, blob, meta⟩ := t
      rw [show saveStep maxMB digest (acc, st) f =
        (acc ++ [Except.ok id],
          ⟨objSet st.audio id blob, objSet st.meta id meta⟩) by
          simp [saveStep, hp]]
      rw [ih]
      simp [hp, Except.map]

/-- C3: `saveAudioFiles` reports, in the same position as each input file,
either that file's content-hash id or that file's own error, independently of
every other file (so a failure aborts nothing); and a batch of one oversized
and one valid file run against an empty store yields one error, one id, and a
store holding exactly the valid file in both tables. -/
theorem c3_batch_independent (maxMB : Nat) (digest : List Nat → List Nat) :
    (∀ (st : Stores) (files : List JsFile),
      (saveAudioFiles maxMB digest st files).1 =
        files.map (fun f => (processAudioFile maxMB digest f).map Prod.fst) ∧
      (saveAudioFiles maxMB digest st files).1.length = files.length) ∧
    (∀ f g : JsFile, f.size > maxMB * 1024 * 1024 →
      g.size ≤ maxMB * 1024 * 1024 →
      saveAudioFiles maxMB digest clearStore [f, g] =
        ([Except.error (SaveError.tooLarge f.size maxMB),
          Except.ok (getBufferHashString digest g.bytes)],
          ⟨[(getBufferHashString digest g.bytes,
              ⟨getBufferHashString digest g.bytes, g.name, g.type,
                generateDataURI g.bytes g.type g.name⟩)],
            [(getBufferHashString digest g.bytes,
              ⟨getBufferHashString digest g.bytes, g.name, g.type,
                (generateDataURI g.bytes g.type g.name).length⟩)]⟩)) := by
  constructor
  · intro st files
    have h := saveAudioFiles_fold maxMB digest files [] st
    constructor
    · simpa [saveAudioFiles] using h
    · simp only [saveAudioFiles]
      rw [show (files.foldl (saveStep maxMB digest) ([], st)).1 =
        files.map (fun f => (processAudioFile maxMB digest f).map Prod.fst)
        by simpa using h]
      simp
  · intro f g hf hg
    have hpf : processAudioFile maxMB digest f =
        .error (.tooLarge f.size maxMB) := by
      unfold processAudioFile; rw [if_pos hf]
    have hpg : processAudioFile maxMB digest g =
        .ok (getBufferHashString digest g.bytes,
          ⟨getBufferHashString digest g.bytes, g.name, g.type,
            generateDataURI g.bytes g.type g.name⟩,
          ⟨getBufferHashString digest g.bytes, g.name, g.type,
            (generateDataURI g.bytes g.type g.name).length⟩) := by
      unfold processAudioFile; rw [if_neg (by omega)]
    simp only [saveAudioFiles, clearStore, List.foldl_cons, List.foldl_nil,
      saveStep, hpf, hpg]
    rfl

theorem c3_witness :
    ((saveAudioFiles 0 constDigest ⟨[], []⟩ [exBigFile, exValidFile]).1 =
      [exBigFile, exValidFile].map
        (fun f => (processAudioFile 0 constDigest f).map Prod.fst) ∧
      (saveAudioFiles 0 constDigest ⟨[], []⟩ [exBigFile, exValidFile]).1.length =
        [exBigFile, exValidFile].length) ∧
    saveAudioFiles 0 constDigest clearStore [exBigFile, exValidFile] =
      ([Except.error (SaveError.tooLarge exBigFile.size 0),
        Except.ok (getBufferHashString constDigest exValidFile.bytes)],
        ⟨[(getBufferHashString constDigest exValidFile.bytes,
            ⟨getBufferHashString constDigest exValidFile.bytes,
              exValidFile.name, exValidFile.type,
              generateDataURI exValidFile.bytes exValidFile.type
                exValidFile.name⟩)],
          [(getBufferHashString constDigest exValidFile.bytes,
            ⟨getBufferHashString constDigest exValidFile.bytes,
              exValidFile.name, exValidFile.type,
              (generateDataURI exValidFile.bytes exValidFile.type
                exValidFile.name).length⟩)]⟩) :=
  ⟨(c3_batch_independent 0 constDigest).1 ⟨[], []⟩ [exBigFile, exValidFile],
    (c3_batch_independent 0 constDigest).2 exBigFile exValidFile
      (by decide) (by decide)⟩

/-! ## Cache lemmas -/

theorem objGet_eq_none_of_not_hasKey {α : Type} {m : List (String × α)}
    {k : String} (h : hasKey m k = false) : objGet m k = none := by
  have h' : ∀ p ∈ m, ¬ (p.1 == k) = true :=
    List.any_eq_false.mp (show m.any (fun p => p.1 == k) = false from h)
  simp [objGet, List.find?_eq_none.mpr h']

theorem hasKey_of_objGet_some {α : Type} {m : List (String × α)} {k : String}
    {v : α} (h : objGet m k = some v) : hasKey m k = true := by
  cases hh : hasKey m k with
  | false =>
    rw [objGet_eq_none_of_not_hasKey hh] at h
    exact Option.noConfusion h
  | true => rfl

theorem objGet_isSome_of_hasKey {α : Type} {m : List (String × α)}
    {k : String} (h : hasKey m k = true) : ∃ v, objGet m k = some v := by
  simp only [hasKey, List.any_eq_true] at h
  obtain ⟨p, hp, hk⟩ := h
  have : (m.find? (fun p => p.1 == k)).isSome :=
    List.find?_isSome.mpr ⟨p, hp, hk⟩
  obtain ⟨q, hq⟩ := Option.isSome_iff_exists.mp this
  exact ⟨q.2, by simp [objGet, hq]⟩

theorem sumSizes_append (a b : List (String × String)) :
    sumSizes (a ++ b) = sumSizes a + sumSizes b := by
  simp [sumSizes]

/-- Replacing the (unique) binding of `k` exchanges the old value's length
for the new one in the size sum. -/
theorem sumSizes_map_set {k uri : String} {old : String} :
    ∀ m : List (String × String), (keysOf m).Nodup →
      objGet m k = some old →
      sumSizes (m.map (fun p => if p.1 == k then (k, uri) else p)) +
        old.length = sumSizes m + uri.length := by
  intro m
  induction m with
  | nil => intro _ h; simp [objGet] at h
  | cons p rest ih =>
    intro hnd hget
    simp only [keysOf, List.map_cons, List.nodup_cons] at hnd
    by_cases hpk : (p.1 == k) = true
    · have hpk' : p.1 = k := by simpa [beq_iff_eq] using hpk
      have hold : p.2 = old := by
        simp only [objGet, List.find?_cons, hpk] at hget
        simpa using hget
      have hnr : k ∉ keysOf rest := by rw [← hpk']; exact hnd.1
      simp only [List.map_cons, if_pos hpk]
      rw [map_set_id_of_not_mem_keys uri hnr]
      simp only [sumSizes, List.map_cons, List.sum_cons, ← hold]
      omega
    · have hget' : objGet rest k = some old := by
        simpa only [objGet, List.find?_cons, hpk, Bool.false_eq_true,
          if_false] using hget
      simp only [List.map_cons, if_neg hpk]
      have := ih (by simpa [keysOf] using hnd.2) hget'
      simp only [sumSizes, List.map_cons, List.sum_cons] at this ⊢
      omega

theorem sumSizes_objSet_of_not_hasKey {m : List (String × String)}
    {k uri : String} (h : hasKey m k = false) :
    sumSizes (objSet m k uri) = sumSizes m + uri.length := by
  simp only [objSet, h, Bool.false_eq_true, if_false]
  rw [sumSizes_append]
  simp [sumSizes]

theorem sumSizes_objSet_of_objGet {m : List (String × String)}
    {k uri old : String} (hnd : (keysOf m).Nodup)
    (h : objGet m k = some old) :
    sumSizes (objSet m k uri) + old.length = sumSizes m + uri.length := by
  simp only [objSet, hasKey_of_objGet_some h, if_true]
  exact sumSizes_map_set m hnd h

theorem objDelete_eq_of_not_hasKey {α : Type} {m : List (String × α)}
    {k : String} (h : hasKey m k = false) : objDelete m k = m := by
  induction m with
  | nil => rfl
  | cons p rest ih =>
    simp only [hasKey, List.any_cons, Bool.or_eq_false_iff] at h
    simp only [objDelete, List.filter_cons, h.1, Bool.not_false, if_pos rfl]
    have := ih (by simp [hasKey, h.2])
    simpa [objDelete] using this

theorem sumSizes_objDelete {m : List (String × String)} {k old : String}
    (hnd : (keysOf m).Nodup) (h : objGet m k = some old) :
    sumSizes (objDelete m k) + old.length = sumSizes m := by
  induction m with
  | nil => simp [objGet] at h
  | cons p rest ih =>
    simp only [keysOf, List.map_cons, List.nodup_cons] at hnd
    by_cases hpk : (p.1 == k) = true
    · have hpk' : p.1 = k := by simpa [beq_iff_eq] using hpk
      have hold : p.2 = old := by
        simp only [objGet, List.find?_cons, hpk] at h
        simpa using h
      have hnr : hasKey rest k = false := by
        cases hh : hasKey rest k with
        | false => rfl
        | true =>
          exact absurd ((hasKey_iff rest k).mp hh)
            (by rw [← hpk']; exact hnd.1)
      simp only [objDelete, List.filter_cons, hpk, Bool.not_true,
        Bool.false_eq_true, if_false]
      rw [show rest.filter (fun p => !(p.1 == k)) = objDelete rest k from rfl,
        objDelete_eq_of_not_hasKey hnr]
      simp only [sumSizes, List.map_cons, List.sum_cons, ← hold]
      omega
    · have h' : objGet rest k = some old := by
        simpa only [objGet, List.find?_cons, hpk, Bool.false_eq_true,
          if_false] using h
      simp only [objDelete, List.filter_cons, hpk, Bool.not_false,
        Bool.false_eq_true, if_pos]
      have := ih (by simpa [keysOf] using hnd.2) h'
      simp only [objDelete, sumSizes, List.map_cons, List.sum_cons] at this ⊢
      omega

theorem hasKey_objDelete_self {α : Type} (m : List (String × α))
    (k : String) : hasKey (objDelete m k) k = false := by
  simp only [hasKey, objDelete, List.any_eq_false]
  intro p hp
  have := List.of_mem_filter hp
  simpa using this

theorem nodup_keys_objDelete {α : Type} {m : List (String × α)} (k : String)
    (h : (keysOf m).Nodup) : (keysOf (objDelete m k)).Nodup := by
  have hsub : (objDelete m k).Sublist m := List.filter_sublist m
  exact (hsub.map Prod.fst).nodup h

theorem nodup_keys_suffix {α : Type} {m e : List (String × α)}
    (hs : e <:+ m) (h : (keysOf m).Nodup) : (keysOf e).Nodup :=
  ((hs.sublist).map Prod.fst).nodup h

theorem hasKey_false_of_suffix {α : Type} {m e : List (String × α)}
    {k : String} (hs : e <:+ m) (h : hasKey m k = false) :
    hasKey e k = false := by
  simp only [hasKey, List.any_eq_false] at h ⊢
  intro p hp
  exact h p (hs.sublist.mem hp)

/-- The eviction loop either stops with room for the new uri or empties the
cache, removes only a suffix's complement (the survivors form a suffix of the
original insertion order), and changes the counter by exactly the removed
uris' total length. -/
theorem evictLoop_spec (cap uriSize : Nat) :
    ∀ (entries : List (String × String)) (size : Int)
      (e' : List (String × String)) (s' : Int),
      evictLoop cap uriSize entries size = some (e', s') →
      (s' + (uriSize : Int) ≤ (cap : Int) ∨ e' = []) ∧
      e' <:+ entries ∧
      s' - (sumSizes e' : Int) = size - (sumSizes entries : Int) := by
  intro entries
  induction entries with
  | nil =>
    intro size e' s' h
    unfold evictLoop at h
    by_cases hle : size + (uriSize : Int) ≤ (cap : Int)
    · rw [if_pos hle] at h
      simp only [Option.some.injEq, Prod.mk.injEq] at h
      obtain ⟨rfl, rfl⟩ := h
      exact ⟨Or.inl hle, List.suffix_refl _, rfl⟩
    · rw [if_neg hle] at h
      simp only [Option.some.injEq, Prod.mk.injEq] at h
      obtain ⟨rfl, rfl⟩ := h
      exact ⟨Or.inr rfl, List.suffix_refl _, rfl⟩
  | cons p rest ih =>
    intro size e' s' h
    unfold evictLoop at h
    by_cases hle : size + (uriSize : Int) ≤ (cap : Int)
    · rw [if_pos hle] at h
      simp only [Option.some.injEq, Prod.mk.injEq] at h
      obtain ⟨rfl, rfl⟩ := h
      exact ⟨Or.inl hle, List.suffix_refl _, rfl⟩
    · rw [if_neg hle] at h
      by_cases hk : p.1 = ""
      · simp [hk] at h
      · simp only [hk, if_false] at h
        obtain ⟨h1, h2, h3⟩ := ih (size - (p.2.length : Int)) e' s' h
        refine ⟨h1, h2.trans (List.suffix_cons p rest), ?_⟩
        rw [h3]
        simp only [sumSizes, List.map_cons, List.sum_cons]
        push_cast
        ring

/-! ## Cache invariant -/

/-- Reachable-state invariant of the playback cache: the `Map` has no
duplicate keys, the byte counter never undercounts the stored uris, and the
stored uris fit the capacity. -/
def CacheInv (cap : Nat) (c : CacheState) : Prop :=
  (keysOf c.entries).Nodup ∧
  (sumSizes c.entries : Int) ≤ c.currentCacheSize ∧
  sumSizes c.entries ≤ cap

instance (cap : Nat) (c : CacheState) : Decidable (CacheInv cap c) := by
  unfold CacheInv; infer_instance

theorem emptyCache_inv (cap : Nat) : CacheInv cap emptyCache := by
  refine ⟨List.nodup_nil, ?_, ?_⟩ <;> simp [emptyCache, sumSizes]

theorem addToCache_inv {cap : Nat} {c c' : CacheState} {id uri : String}
    (hinv : CacheInv cap c) (h : addToCache cap c id uri = some c') :
    CacheInv cap c' := by
  obtain ⟨hnd, hsum, hcap⟩ := hinv
  unfold addToCache at h
  by_cases hbig : uri.length > cap
  · rw [if_pos hbig] at h
    simp only [Option.some.injEq] at h
    subst h
    exact ⟨hnd, hsum, hcap⟩
  · rw [if_neg hbig] at h
    cases hev : evictLoop cap uri.length c.entries c.currentCacheSize with
    | none => rw [hev] at h; exact Option.noConfusion h
    | some pr =>
      obtain ⟨e', s'⟩ := pr
      rw [hev] at h
      simp only [Option.some.injEq] at h
      subst h
      obtain ⟨hroom, hsuf, hdrift⟩ :=
        evictLoop_spec cap uri.length c.entries c.currentCacheSize e' s' hev
      have hnd' : (keysOf e').Nodup := nodup_keys_suffix hsuf hnd
      have hsum' : (sumSizes e' : Int) ≤ s' := by omega
      have hsmall : (sumSizes (objSet e' id uri) : Int) ≤
          (sumSizes e' : Int) + (uri.length : Int) := by
        cases hk : hasKey e' id with
        | false =>
          rw [sumSizes_objSet_of_not_hasKey hk]
          push_cast
          omega
        | true =>
          obtain ⟨old, hold⟩ := objGet_isSome_of_hasKey hk
          have heq := @sumSizes_objSet_of_objGet e' id uri old hnd' hold
          have heq' : (sumSizes (objSet e' id uri) : Int) +
              (old.length : Int) =
              (sumSizes e' : Int) + (uri.length : Int) := by
            exact_mod_cast congrArg (Nat.cast : Nat → Int) heq
          have : (0 : Int) ≤ (old.length : Int) := Int.ofNat_nonneg _
          omega
      refine ⟨nodup_keys_objSet _ hnd', by simp only []; omega, ?_⟩
      rcases hroom with hroom | hempty
      · have : (sumSizes (objSet e' id uri) : Int) ≤ (cap : Int) := by omega
        exact_mod_cast this
      · subst hempty
        have h0 : hasKey ([] : List (String × String)) id = false := rfl
        rw [sumSizes_objSet_of_not_hasKey h0]
        simp only [sumSizes, List.map_nil, List.sum_nil]
        omega

theorem getFromCache_eq_none {c : CacheState} {id : String}
    (hg : objGet c.entries id = none) : getFromCache c id = (none, c) := by
  unfold getFromCache
  rw [hg]

theorem getFromCache_eq_falsy {c : CacheState} {id uri : String}
    (hg : objGet c.entries id = some uri) (hu : uri = "") :
    getFromCache c id = (some uri, c) := by
  unfold getFromCache
  rw [hg]
  simp [hu]

theorem getFromCache_eq_move {c : CacheState} {id uri : String}
    (hg : objGet c.entries id = some uri) (hu : uri ≠ "") :
    getFromCache c id = (some uri,
      ⟨objSet (objDelete c.entries id) id uri, c.currentCacheSize⟩) := by
  unfold getFromCache
  rw [hg]
  simp [hu]

theorem getFromCache_entries {c : CacheState} {id : String}
    (hnd : (keysOf c.entries).Nodup) :
    sumSizes (getFromCache c id).2.entries = sumSizes c.entries ∧
    (getFromCache c id).2.currentCacheSize = c.currentCacheSize ∧
    (keysOf (getFromCache c id).2.entries).Nodup := by
  cases hg : objGet c.entries id with
  | none => rw [getFromCache_eq_none hg]; exact ⟨rfl, rfl, hnd⟩
  | some uri =>
    by_cases hu : uri = ""
    · rw [getFromCache_eq_falsy hg hu]; exact ⟨rfl, rfl, hnd⟩
    · rw [getFromCache_eq_move hg hu]
      refine ⟨?_, rfl, ?_⟩
      · have hdel := sumSizes_objDelete hnd hg
        have hfree := hasKey_objDelete_self c.entries id
        rw [sumSizes_objSet_of_not_hasKey hfree]
        omega
      · exact nodup_keys_objSet _ (nodup_keys_objDelete _ hnd)

theorem getFromCache_inv {cap : Nat} {c : CacheState} (id : String)
    (hinv : CacheInv cap c) : CacheInv cap (getFromCache c id).2 := by
  obtain ⟨hnd, hsum, hcap⟩ := hinv
  obtain ⟨h1, h2, h3⟩ := @getFromCache_entries c id hnd
  exact ⟨h3, by rw [h1, h2]; exact hsum, by rw [h1]; exact hcap⟩

theorem runOps_inv (cap : Nat) :
    ∀ (ops : List CacheOp) (c c' : CacheState), CacheInv cap c →
      runOps cap c ops = some c' → CacheInv cap c' := by
  intro ops
  induction ops with
  | nil =>
    intro c c' h hr
    simp only [runOps, Option.some.injEq] at hr
    subst hr
    exact h
  | cons op rest ih =>
    intro c c' h hr
    cases op with
    | put id uri =>
      simp only [runOps] at hr
      cases haddr : addToCache cap c id uri with
      | none => rw [haddr] at hr; exact Option.noConfusion hr
      | some c'' =>
        rw [haddr] at hr
        exact ih c'' c' (addToCache_inv h haddr) hr
    | get id =>
      simp only [runOps] at hr
      exact ih _ c' (getFromCache_inv id h) hr
    | clear =>
      simp only [runOps] at hr
      exact ih _ c' (emptyCache_inv cap) hr

/-! ## Cache drift and recency lemmas -/

/-- How far the running counter exceeds the real cached size. -/
def cacheDrift (c : CacheState) : Int :=
  c.currentCacheSize - (sumSizes c.entries : Int)

theorem objSet_eq_append {α : Type} {m : List (String × α)} {k : String}
    (v : α) (h : hasKey m k = false) : objSet m k v = m ++ [(k, v)] := by
  simp [objSet, h]

theorem addToCache_drift_fresh {cap : Nat} {c c' : CacheState}
    {id uri : String} (hfresh : hasKey c.entries id = false)
    (h : addToCache cap c id uri = some c') : cacheDrift c' = cacheDrift c := by
  unfold addToCache at h
  by_cases hbig : uri.length > cap
  · rw [if_pos hbig] at h
    simp only [Option.some.injEq] at h
    subst h
    rfl
  · rw [if_neg hbig] at h
    cases hev : evictLoop cap uri.length c.entries c.currentCacheSize with
    | none => rw [hev] at h; exact Option.noConfusion h
    | some pr =>
      obtain ⟨e', s'⟩ := pr
      rw [hev] at h
      simp only [Option.some.injEq] at h
      subst h
      obtain ⟨_, hsuf, hdrift⟩ :=
        evictLoop_spec cap uri.length c.entries c.currentCacheSize e' s' hev
      have hfree : hasKey e' id = false := hasKey_false_of_suffix hsuf hfresh
      unfold cacheDrift
      simp only [sumSizes_objSet_of_not_hasKey hfree]
      push_cast
      omega

theorem addToCache_fresh_last {cap : Nat} {c c' : CacheState}
    {id uri : String} (hfresh : hasKey c.entries id = false)
    (hfits : uri.length ≤ cap)
    (h : addToCache cap c id uri = some c') :
    c'.entries.getLast? = some (id, uri) := by
  unfold addToCache at h
  rw [if_neg (by omega)] at h
  cases hev : evictLoop cap uri.length c.entries c.currentCacheSize with
  | none => rw [hev] at h; exact Option.noConfusion h
  | some pr =>
    obtain ⟨e', s'⟩ := pr
    rw [hev] at h
    simp only [Option.some.injEq] at h
    subst h
    obtain ⟨_, hsuf, _⟩ :=
      evictLoop_spec cap uri.length c.entries c.currentCacheSize e' s' hev
    have hfree : hasKey e' id = false := hasKey_false_of_suffix hsuf hfresh
    simp only [objSet_eq_append _ hfree]
    simp [List.getLast?_concat]

theorem getFromCache_last {c : CacheState} {id uri : String}
    (hg : objGet c.entries id = some uri) (hu : uri ≠ "") :
    (getFromCache c id).2.entries.getLast? = some (id, uri) := by
  rw [getFromCache_eq_move hg hu]
  have hfree := hasKey_objDelete_self c.entries id
  simp only [objSet_eq_append _ hfree]
  simp [List.getLast?_concat]

theorem getFromCache_drift {c : CacheState} (id : String)
    (hnd : (keysOf c.entries).Nodup) :
    cacheDrift (getFromCache c id).2 = cacheDrift c := by
  obtain ⟨h1, h2, _⟩ := @getFromCache_entries c id hnd
  unfold cacheDrift
  rw [h1, h2]

theorem addToCache_replace {cap : Nat} {c : CacheState} {id uri old : String}
    (hinv : CacheInv cap c) (hold : objGet c.entries id = some old)
    (hfit : c.currentCacheSize + (uri.length : Int) ≤ (cap : Int)) :
    addToCache cap c id uri =
      some ⟨objSet c.entries id uri,
        c.currentCacheSize + (uri.length : Int)⟩ ∧
    cacheDrift ⟨objSet c.entries id uri,
        c.currentCacheSize + (uri.length : Int)⟩ =
      cacheDrift c + (old.length : Int) := by
  obtain ⟨hnd, hsum, hcap⟩ := hinv
  have h0 : (0 : Int) ≤ (sumSizes c.entries : Int) := Int.ofNat_nonneg _
  have hle : (uri.length : Int) ≤ (cap : Int) := by omega
  have hbig : ¬ uri.length > cap := by
    have : uri.length ≤ cap := by exact_mod_cast hle
    omega
  refine ⟨?_, ?_⟩
  · unfold addToCache
    rw [if_neg hbig]
    unfold evictLoop
    rw [if_pos hfit]
  · have heq := @sumSizes_objSet_of_objGet c.entries id uri old hnd hold
    have heq' : (sumSizes (objSet c.entries id uri) : Int) +
        (old.length : Int) =
        (sumSizes c.entries : Int) + (uri.length : Int) := by
      exact_mod_cast congrArg (Nat.cast : Nat → Int) heq
    unfold cacheDrift
    simp only
    omega

theorem runOpsFresh_inv (cap : Nat) :
    ∀ (ops : List CacheOp) (c c' : CacheState),
      CacheInv cap c → cacheDrift c = 0 →
      runOpsFresh cap c ops = some c' →
      CacheInv cap c' ∧ cacheDrift c' = 0 := by
  intro ops
  induction ops with
  | nil =>
    intro c c' hinv hdr hr
    simp only [runOpsFresh, Option.some.injEq] at hr
    subst hr
    exact ⟨hinv, hdr⟩
  | cons op rest ih =>
    intro c c' hinv hdr hr
    cases op with
    | put id uri =>
      simp only [runOpsFresh] at hr
      cases hk : hasKey c.entries id with
      | true => rw [hk] at hr; simp at hr
      | false =>
        rw [hk] at hr
        simp only [Bool.false_eq_true, if_false] at hr
        cases haddr : addToCache cap c id uri with
        | none => rw [haddr] at hr; exact Option.noConfusion hr
        | some c'' =>
          rw [haddr] at hr
          exact ih c'' c' (addToCache_inv hinv haddr)
            (by rw [addToCache_drift_fresh hk haddr]; exact hdr) hr
    | get id =>
      simp only [runOpsFresh] at hr
      exact ih _ c' (getFromCache_inv id hinv)
        (by rw [getFromCache_drift id hinv.1]; exact hdr) hr
    | clear =>
      simp only [runOpsFresh] at hr
      exact ih _ c' (emptyCache_inv cap) rfl hr

/-! ## C4 — cache byte bound and recency -/

/-- C4 counterexample: from the empty cache with capacity 10, the put
sequence a, b, a (again), c evicts `"a"` — the most recently *put* id —
while the older `"b"` survives, because `Map.set` on a present key keeps its
old position instead of moving it to the most-recent end.  This falsifies the
claim's "most recently get/put entries are retained in preference to older
ones (strict recency order)". -/
theorem c4_counterexample :
    runOps 10 emptyCache
      [CacheOp.put "a" "aaa", CacheOp.put "b" "bbb",
       CacheOp.put "a" "xxx", CacheOp.put "c" "dddd"] =
      some ⟨[("b", "bbb"), ("c", "dddd")], 10⟩ ∧
    objGet ([("b", "bbb"), ("c", "dddd")] : List (String × String)) "a" =
      none ∧
    objGet ([("b", "bbb"), ("c", "dddd")] : List (String × String)) "b" =
      some "bbb" := by
  decide

/-- C4 (amended): after any sequence of puts (and gets/clears) from the empty
cache, the total length of the cached uris is at most `capacityBytes`;
eviction removes entries oldest-insertion-first, and a `get` hit or a put of
a *new* id does land at the most-recently-used end — but a put of an
already-cached id keeps the entry's old position (see the counterexample),
so retention follows insertion order, not strict get/put recency. -/
theorem c4_cache_bound (cap : Nat) :
    (∀ (ops : List CacheOp) (c : CacheState),
      runOps cap emptyCache ops = some c → sumSizes c.entries ≤ cap) ∧
    (∀ (c : CacheState) (id uri : String), uri ≠ "" →
      objGet c.entries id = some uri →
      (getFromCache c id).2.entries.getLast? = some (id, uri)) ∧
    (∀ (c c' : CacheState) (id uri : String),
      hasKey c.entries id = false → uri.length ≤ cap →
      addToCache cap c id uri = some c' →
      c'.entries.getLast? = some (id, uri)) := by
  refine ⟨?_, ?_, ?_⟩
  · intro ops c hr
    exact (runOps_inv cap ops emptyCache c (emptyCache_inv cap) hr).2.2
  · intro c id uri hu hg
    exact getFromCache_last hg hu
  · intro c c' id uri hfresh hfits h
    exact addToCache_fresh_last hfresh hfits h

theorem c4_witness :
    sumSizes (CacheState.mk [("a", "aa")] 2).entries ≤ 10 ∧
    (getFromCache ⟨[("a", "aa")], 2⟩ "a").2.entries.getLast? =
      some ("a", "aa") ∧
    (CacheState.mk [("b", "bb")] 2).entries.getLast? = some ("b", "bb") :=
  ⟨(c4_cache_bound 10).1 [CacheOp.put "a" "aa"] ⟨[("a", "aa")], 2⟩
      (by decide),
   (c4_cache_bound 10).2.1 ⟨[("a", "aa")], 2⟩ "a" "aa" (by decide)
      (by decide),
   (c4_cache_bound 10).2.2 emptyCache ⟨[("b", "bb")], 2⟩ "b" "bb"
      (by decide) (by decide) (by decide)⟩

/-! ## C5 — an oversized uri is rejected -/

/-- C5 counterexample: with capacity 1, cache `"a" ↦ "x"` first; the
oversized `put("a", "xy")` is rejected and changes nothing, but the *old*
entry is still there, so `get("a")` returns `"x"`, not absent.  The claim's
"for every prior cache state … get(id) returns absent" is false whenever the
id was already cached. -/
theorem c5_counterexample :
    runOps 1 emptyCache [CacheOp.put "a" "x", CacheOp.put "a" "xy"] =
      some ⟨[("a", "x")], 1⟩ ∧
    ("xy".length > 1) ∧
    (getFromCache ⟨[("a", "x")], 1⟩ "a").1 = some "x" ∧
    (getFromCache ⟨[("a", "x")], 1⟩ "a").1 ≠ none := by
  decide

/-- C5 (amended): a put whose uri alone exceeds `capacityBytes` caches
nothing and evicts nothing — the cache state is completely unchanged — and a
`get` of that id immediately afterwards returns absent *provided the id was
not already cached* (an existing entry for the same id survives the rejected
put and keeps hitting). -/
theorem c5_oversize_put (cap : Nat) (c : CacheState) (id uri : String)
    (h : uri.length > cap) :
    addToCache cap c id uri = some c ∧
    (objGet c.entries id = none → (getFromCache c id).1 = none) := by
  constructor
  · unfold addToCache
    rw [if_pos h]
  · intro hg
    rw [getFromCache_eq_none hg]

theorem c5_witness :
    addToCache 1 emptyCache "a" "xy" = some emptyCache ∧
    (objGet emptyCache.entries "a" = none →
      (getFromCache emptyCache "a").1 = none) :=
  c5_oversize_put 1 emptyCache "a" "xy" (by decide)

/-! ## C10 — the byte counter versus the cached bytes -/

/-- C10 counterexample: two puts of the same id from the empty cache leave
one 2-byte entry but a counter of 4 — the replaced entry's size is counted
twice, because `addToCache` adds the new length without subtracting the
replaced value's. -/
theorem c10_counterexample :
    runOps 10 emptyCache [CacheOp.put "a" "xx", CacheOp.put "a" "xx"] =
      some ⟨[("a", "xx")], 4⟩ ∧
    sumSizes ([("a", "xx")] : List (String × String)) = 2 ∧
    (CacheState.mk [("a", "xx")] 4).currentCacheSize ≠
      (sumSizes ([("a", "xx")] : List (String × String)) : Int) := by
  decide

/-- C10 (amended): the counter never undercounts the cached bytes; it equals
their sum after any sequence of put/get/clear in which no put's id was
already cached at the time of the put; and a put of an already-cached id
(here when no eviction is needed) leaves the counter exceeding the sum by
exactly the replaced uri's length — the replaced entry is counted twice, not
once as the claim states. -/
theorem c10_cache_counter (cap : Nat) :
    (∀ (ops : List CacheOp) (c : CacheState),
      runOps cap emptyCache ops = some c → 0 ≤ cacheDrift c) ∧
    (∀ (ops : List CacheOp) (c : CacheState),
      runOpsFresh cap emptyCache ops = some c → cacheDrift c = 0) ∧
    (∀ (c : CacheState) (id uri old : String), CacheInv cap c →
      objGet c.entries id = some old →
      c.currentCacheSize + (uri.length : Int) ≤ (cap : Int) →
      addToCache cap c id uri =
        some ⟨objSet c.entries id uri,
          c.currentCacheSize + (uri.length : Int)⟩ ∧
      cacheDrift ⟨objSet c.entries id uri,
          c.currentCacheSize + (uri.length : Int)⟩ =
        cacheDrift c + (old.length : Int)) := by
  refine ⟨?_, ?_, ?_⟩
  · intro ops c hr
    obtain ⟨_, hsum, _⟩ :=
      runOps_inv cap ops emptyCache c (emptyCache_inv cap) hr
    unfold cacheDrift
    omega
  · intro ops c hr
    exact (runOpsFresh_inv cap ops emptyCache c (emptyCache_inv cap) rfl
      hr).2
  · intro c id uri old hinv hold hfit
    exact addToCache_replace hinv hold hfit

theorem c10_witness :
    0 ≤ cacheDrift ⟨[("a", "xx")], 2⟩ ∧
    cacheDrift ⟨[("a", "xx")], 2⟩ = 0 ∧
    (addToCache 10 ⟨[("a", "xx")], 2⟩ "a" "y" =
      some ⟨objSet [("a", "xx")] "a" "y",
        (2 : Int) + (("y" : String).length : Int)⟩ ∧
    cacheDrift ⟨objSet [("a", "xx")] "a" "y",
        (2 : Int) + (("y" : String).length : Int)⟩ =
      cacheDrift ⟨[("a", "xx")], 2⟩ + (("xx" : String).length : Int)) :=
  ⟨(c10_cache_counter 10).1 [CacheOp.put "a" "xx"] ⟨[("a", "xx")], 2⟩
      (by decide),
   (c10_cache_counter 10).2.1 [CacheOp.put "a" "xx"] ⟨[("a", "xx")], 2⟩
      (by decide),
   (c10_cache_counter 10).2.2 ⟨[("a", "xx")], 2⟩ "a" "y" "xx"
      (by decide) (by decide) (by decide)⟩

/-! ## C6 — the migration rewrite loop throws on every legacy store -/

/-- A legacy backend state: one blob row with a random-UUID key, a raw
`buffer` field and no `dataUri`, and no metadata table — exactly the shape
the Migration Engine exists to rewrite. -/
def exLegacyBackend : Backend :=
  ⟨some [("550e8400-e29b-41d4-a716-446655440000",
      RawValue.obj ⟨some "550e8400-e29b-41d4-a716-446655440000",
        some "a.mp3", some "audio/mpeg", none, some [1, 2, 3]⟩)],
    none⟩

/-- C6: the legacy row is detected (`needsMigration` is set — it has a
`buffer` field and a UUID-shaped id), but the rewrite loop
`for (const [file] of Object.values(audioStore))` array-destructures each
row value, and a plain object is not iterable, so the first iteration throws
a `TypeError` — `migrateStorage` never rewrites a legacy store, contradicting
the claim (and the function's own doc comment) that migration rewrites it and
is never fatal. -/
theorem c6_migration_throws :
    needsMigrationRow (RawValue.obj ⟨some "550e8400-e29b-41d4-a716-446655440000",
      some "a.mp3", some "audio/mpeg", none, some [1, 2, 3]⟩) = true ∧
    migrateStorage exLegacyBackend = Except.error () := by
  decide

/-! ## C7 — custom-sound resolution against the cache -/

theorem getCustomSoundURL_custom {catalog : List SoundType}
    {table : List (String × String)} {store : SettingsStore}
    {cache : CacheState} {eventId : String} {ov : SoundOverride}
    {fid : String} (hov : objGet store eventId = some ov)
    (hen : ov.enabled = true) (hcus : ov.selectedSound = "custom")
    (hfid : ov.selectedFileId = some fid) (hne : fid ≠ "") :
    getCustomSoundURL catalog table store cache eventId =
      getFromCache cache fid := by
  unfold getCustomSoundURL getOverride
  rw [hov]
  simp [hen, hcus, hfid, truthyFileId, hne]

/-- The example asset, uri, stores, settings and cache used by the resolver
claims. -/
def exUri : String := "data:audio/mpeg;base64,XYZ"

def exStores : Stores :=
  ⟨[("abc", ⟨"abc", "a.mp3", "audio/mpeg", exUri⟩)],
    [("abc", ⟨"abc", "a.mp3", "audio/mpeg", 26⟩)]⟩

def exSettings : SettingsStore :=
  [("user_join", ⟨true, "custom", some "abc", 100⟩)]

def exCache : CacheState := ⟨[("abc", exUri)], 26⟩

/-- C7 counterexample: delete the asset `"abc"` — both table rows are gone —
yet with its uri still sitting in the playback cache (`deleteAudio` never
touches the cache), resolution returns the stale uri, not `null` as the
claim requires for a deleted asset. -/
theorem c7_counterexample :
    objGet (deleteAudio exStores "abc").audio "abc" = none ∧
    objGet (deleteAudio exStores "abc").meta "abc" = none ∧
    (getCustomSoundURL soundTypes [] exSettings exCache "user_join").1 =
      some exUri ∧
    (getCustomSoundURL soundTypes [] exSettings exCache "user_join").1 ≠
      none := by
  decide

/-- C7 (amended): with an enabled override selecting `"custom"` and a truthy
`selectedFileId`, resolution returns exactly the cached uri whenever the file
id is in the playback cache, and returns `null` whenever it is absent from
the cache — in particular for a deleted asset whose uri was never cached or
was purged.  Deleting alone does not purge the cache, so a still-cached
deleted asset resolves to the stale uri (see the counterexample).  Resolution
is a total function of the stores and never raises. -/
theorem c7_resolver (catalog : List SoundType)
    (table : List (String × String)) (store : SettingsStore)
    (cache : CacheState) (eventId : String) (ov : SoundOverride)
    (fid : String) (hov : objGet store eventId = some ov)
    (hen : ov.enabled = true) (hcus : ov.selectedSound = "custom")
    (hfid : ov.selectedFileId = some fid) (hne : fid ≠ "") :
    (∀ uri, objGet cache.entries fid = some uri →
      (getCustomSoundURL catalog table store cache eventId).1 = some uri) ∧
    (objGet cache.entries fid = none →
      (getCustomSoundURL catalog table store cache eventId).1 = none) := by
  rw [getCustomSoundURL_custom hov hen hcus hfid hne]
  constructor
  · intro uri hg
    by_cases hu : uri = ""
    · rw [getFromCache_eq_falsy hg hu]
    · rw [getFromCache_eq_move hg hu]
  · intro hg
    rw [getFromCache_eq_none hg]

theorem c7_witness :
    (getCustomSoundURL soundTypes [] exSettings exCache "user_join").1 =
      some exUri ∧
    (getCustomSoundURL soundTypes [] exSettings emptyCache "user_join").1 =
      none :=
  ⟨(c7_resolver soundTypes [] exSettings exCache "user_join"
      ⟨true, "custom", some "abc", 100⟩ "abc" (by decide) rfl rfl rfl
      (by decide)).1 exUri (by decide),
    (c7_resolver soundTypes [] exSettings emptyCache "user_join"
      ⟨true, "custom", some "abc", 100⟩ "abc" (by decide) rfl rfl rfl
      (by decide)).2 (by decide)⟩

/-! ## C8 — seasonal resolution -/

/-- A found seasonal id starts with `"<selectedSound>_"` and is therefore
nonempty, so the JS truthiness guard on it passes. -/
theorem jsStartsWith_ne_empty {s ss : String}
    (h : jsStartsWith s (ss ++ "_") = true) : s ≠ "" := by
  unfold jsStartsWith at h
  rw [ List.isPrefixOf_iff_prefix] at h
  intro hs
  subst hs
  have hdata : (ss ++ "_").toList = ss.toList ++ ['_'] := by
    show (ss ++ "_").data = ss.data ++ ['_']
    rw [String.data_append]
  rw [hdata] at h
  have := h.length_le
  simp at this

theorem getCustomSoundURL_seasonal_eq {catalog : List SoundType}
    {table : List (String × String)} {store : SettingsStore}
    {cache : CacheState} {eventId : String} {ov : SoundOverride}
    (hov : objGet store eventId = some ov) (hen : ov.enabled = true)
    (hndft : ov.selectedSound ≠ "default")
    (hnc : ov.selectedSound ≠ "custom") :
    getCustomSoundURL catalog table store cache eventId =
      (match objGet table ov.selectedSound with
       | some uri => (some uri, cache)
       | none =>
         match catalog.find? (fun t => t.id == eventId) with
         | none => (none, cache)
         | some soundType =>
           match soundType.seasonal with
           | none => (none, cache)
           | some seasonal =>
             match seasonal.find?
                 (fun sid => jsStartsWith sid (ov.selectedSound ++ "_")) with
             | none => (none, cache)
             | some seasonalId =>
               if seasonalId ≠ "" then
                 match objGet table seasonalId with
                 | some uri => (some uri, cache)
                 | none => (none, cache)
               else (none, cache)) := by
  have hc2 : (ov.selectedSound == "custom") = false :=
    beq_eq_false_iff_ne.mpr hnc
  unfold getCustomSoundURL getOverride
  rw [hov]
  simp [hen, hc2, bne_iff_ne, hndft, hnc]

/-- C8: for an enabled override whose `selectedSound` is neither `"default"`
nor `"custom"`, resolution (1) returns the seasonal table's uri for the
literal `selectedSound` key on a direct hit; (2) on a direct miss, finds in
the event's catalog entry the first seasonal id prefixed by
`"<selectedSound>_"` and returns the seasonal table's uri for it; and (3)
resolves to no override (`null`) when neither lookup succeeds. -/
theorem c8_seasonal_resolution (catalog : List SoundType)
    (table : List (String × String)) (store : SettingsStore)
    (cache : CacheState) (eventId : String) (ov : SoundOverride)
    (hov : objGet store eventId = some ov) (hen : ov.enabled = true)
    (hndft : ov.selectedSound ≠ "default")
    (hnc : ov.selectedSound ≠ "custom") :
    (∀ uri, objGet table ov.selectedSound = some uri →
      (getCustomSoundURL catalog table store cache eventId).1 = some uri) ∧
    (∀ st l sid uri, objGet table ov.selectedSound = none →
      catalog.find? (fun t => t.id == eventId) = some st →
      st.seasonal = some l →
      l.find? (fun s => jsStartsWith s (ov.selectedSound ++ "_")) = some sid →
      objGet table sid = some uri →
      (getCustomSoundURL catalog table store cache eventId).1 = some uri) ∧
    (objGet table ov.selectedSound = none →
      (∀ st, catalog.find? (fun t => t.id == eventId) = some st →
        ∀ l, st.seasonal = some l →
        ∀ sid, l.find?
            (fun s => jsStartsWith s (ov.selectedSound ++ "_")) = some sid →
        objGet table sid = none) →
      (getCustomSoundURL catalog table store cache eventId).1 = none) := by
  rw [getCustomSoundURL_seasonal_eq hov hen hndft hnc]
  refine ⟨?_, ?_, ?_⟩
  · intro uri hhit
    rw [hhit]
  · intro st l sid uri hmiss hfind hseas hsid htbl
    have hpred := List.find?_some hsid
    rw [hmiss]
    dsimp only
    rw [hfind]
    dsimp only
    rw [hseas]
    dsimp only
    rw [hsid]
    dsimp only
    rw [if_pos (jsStartsWith_ne_empty hpred), htbl]
  · intro hmiss hnone
    rw [hmiss]
    dsimp only
    cases hfind : catalog.find? (fun t => t.id == eventId) with
    | none => rfl
    | some st =>
      dsimp only
      cases hseas : st.seasonal with
      | none => rfl
      | some l =>
        dsimp only
        cases hsid : l.find?
            (fun s => jsStartsWith s (ov.selectedSound ++ "_")) with
        | none => rfl
        | some sid =>
          dsimp only
          have hpred := List.find?_some hsid
          rw [if_pos (jsStartsWith_ne_empty hpred),
            hnone st hfind l hseas sid hsid]

/-- Example inputs for the seasonal-resolution witness. -/
def exSeasonalOverride : SoundOverride := ⟨true, "halloween", none, 100⟩

def exSeasonalStore : SettingsStore := [("user_join", exSeasonalOverride)]

theorem c8_witness :
    (getCustomSoundURL soundTypes [("halloween", "uriH")] exSeasonalStore
      emptyCache "user_join").1 = some "uriH" ∧
    (getCustomSoundURL soundTypes [("halloween_user_join", "uriS")]
      exSeasonalStore emptyCache "user_join").1 = some "uriS" ∧
    (getCustomSoundURL soundTypes [] exSeasonalStore emptyCache
      "user_join").1 = none :=
  ⟨(c8_seasonal_resolution soundTypes [("halloween", "uriH")]
      exSeasonalStore emptyCache "user_join" exSeasonalOverride (by decide)
      rfl (by decide) (by decide)).1 "uriH" (by decide),
    (c8_seasonal_resolution soundTypes [("halloween_user_join", "uriS")]
      exSeasonalStore emptyCache "user_join" exSeasonalOverride (by decide)
      rfl (by decide) (by decide)).2.1
      ⟨"User Join", "user_join",
        some ["halloween_user_join", "winter_user_join"]⟩
      ["halloween_user_join", "winter_user_join"] "halloween_user_join"
      "uriS" (by decide) (by decide) rfl (by decide) (by decide),
    (c8_seasonal_resolution soundTypes [] exSeasonalStore emptyCache
      "user_join" exSeasonalOverride (by decide) rfl (by decide)
      (by decide)).2.2 (by decide)
      (by intro st _ l _ sid _; rfl)⟩
